import Mathlib

/-!
Verification of the schema-introspection core of the `sqlite-glance` tool.

The Rust source under `src/` is shallowly embedded here:

* `src/table.rs` — identifier escaping (`Table::escaped_name`), foreign-key
  row grouping (`ForeignKeys::from_rows`, `for_name`, `multicolumn`),
  virtual-table detection (`Table::virtual_using`), table-name listing
  (`get_table_names`), generated-column expression recovery
  (`Table::col_def_ast`, `Table::get_gencol_expr`).
* `src/main.rs` — index classification and column annotation in
  `inspect_schema`, the paging decision in `inspect_table` /
  `inspect_schema`, and the table-lookup error path in `main`.

Database catalog output (rows of `pragma_table_list`, `pragma_table_xinfo`,
`pragma_index_list`, `pragma_foreign_key_list`) and the SQL parser of the
`sqlparser` crate are external collaborators; their outputs are modelled as
explicit inputs to the embedded functions, mirroring the row shapes the
Rust code reads.
-/

namespace Glance

/-- Modelled from the spec: the reserved-word check `keywords::is_keyword`
lives in `src/table/keywords.rs`, which is not part of the provided source.
The spec requires "not a reserved keyword for the dialect in use"; SQLite
reserved words are matched ASCII case-insensitively. -/
def SQLITE_KEYWORDS : List String :=
  ["ABORT", "ACTION", "ADD", "AFTER", "ALL", "ALTER", "ALWAYS", "ANALYZE",
   "AND", "AS", "ASC", "ATTACH", "AUTOINCREMENT", "BEFORE", "BEGIN",
   "BETWEEN", "BY", "CASCADE", "CASE", "CAST", "CHECK", "COLLATE", "COLUMN",
   "COMMIT", "CONFLICT", "CONSTRAINT", "CREATE", "CROSS", "CURRENT",
   "CURRENT_DATE", "CURRENT_TIME", "CURRENT_TIMESTAMP", "DATABASE",
   "DEFAULT", "DEFERRABLE", "DEFERRED", "DELETE", "DESC", "DETACH",
   "DISTINCT", "DO", "DROP", "EACH", "ELSE", "END", "ESCAPE", "EXCEPT",
   "EXCLUDE", "EXCLUSIVE", "EXISTS", "EXPLAIN", "FAIL", "FILTER", "FIRST",
   "FOLLOWING", "FOR", "FOREIGN", "FROM", "FULL", "GENERATED", "GLOB",
   "GROUP", "GROUPS", "HAVING", "IF", "IGNORE", "IMMEDIATE", "IN", "INDEX",
   "INDEXED", "INITIALLY", "INNER", "INSERT", "INSTEAD", "INTERSECT",
   "INTO", "IS", "ISNULL", "JOIN", "KEY", "LAST", "LEFT", "LIKE", "LIMIT",
   "MATCH", "MATERIALIZED", "NATURAL", "NO", "NOT", "NOTHING", "NOTNULL",
   "NULL", "NULLS", "OF", "OFFSET", "ON", "OR", "ORDER", "OTHERS", "OUTER",
   "OVER", "PARTITION", "PLAN", "PRAGMA", "PRECEDING", "PRIMARY", "QUERY",
   "RAISE", "RANGE", "RECURSIVE", "REFERENCES", "REGEXP", "REINDEX",
   "RELEASE", "RENAME", "REPLACE", "RESTRICT", "RETURNING", "RIGHT",
   "ROLLBACK", "ROW", "ROWS", "SAVEPOINT", "SELECT", "SET", "TABLE", "TEMP",
   "TEMPORARY", "THEN", "TIES", "TO", "TRANSACTION", "TRIGGER", "UNBOUNDED",
   "UNION", "UNIQUE", "UPDATE", "USING", "VACUUM", "VALUES", "VIEW",
   "VIRTUAL", "WHEN", "WHERE", "WINDOW", "WITH", "WITHOUT"]

/-- Modelled from the spec: `keywords::is_keyword`, the reserved-word test
used by `Table::escaped_name`.  The ASCII case fold is written on the
character list so that it evaluates by kernel reduction. -/
def is_keyword (s : String) : Bool :=
  SQLITE_KEYWORDS.contains (String.mk (s.data.map Char.toUpper))

/-- The per-character test of `Table::escaped_name`
(`c.is_ascii_alphanumeric() || c == '_'`).  `Char.isAlphanum` in Lean is
the ASCII test, matching Rust's `is_ascii_alphanumeric`. -/
def is_valid_ident_char (c : Char) : Bool :=
  c.isAlphanum || c == '_'

/-- Character-level embedding of `self.name.replace('"', "\"\"")`:
each double-quote character is replaced by two of them. -/
def doubleQuotes : List Char → List Char
  | [] => []
  | c :: cs => if c = '"' then '"' :: '"' :: doubleQuotes cs else c :: doubleQuotes cs

/-- Embedding of `name.replace('"', "\"\"")` on strings. -/
def replaceQuote (s : String) : String :=
  String.mk (doubleQuotes s.data)

/-- Embedding of `Table::escaped_name` (src/table.rs:229-243): the name is
returned unchanged when every character is ASCII alphanumeric or `_` and
the name is not a keyword; otherwise it is wrapped in double quotes with
embedded double quotes doubled. -/
def escaped_name (name : String) : String :=
  if name.data.all is_valid_ident_char && !is_keyword name then
    name
  else
    "\"" ++ replaceQuote name ++ "\""

/-- Inverse operation stated by the spec for the round-trip property:
collapse each doubled double-quote back to a single one. -/
def collapseQuotes : List Char → List Char
  | [] => []
  | [c] => [c]
  | c :: d :: cs =>
    if c = '"' ∧ d = '"' then '"' :: collapseQuotes cs
    else c :: collapseQuotes (d :: cs)

/-- Un-escaping as the spec describes it: strip the two delimiter
characters and collapse doubled quotes. -/
def unescape_name (s : String) : String :=
  String.mk (collapseQuotes (s.data.drop 1).dropLast)

/-- Row shape of `pragma_foreign_key_list` as read by
`ForeignKeys::from_rows` (src/table.rs:92-114): constraint id, target
table, source column (`from` in the Rust source, renamed because `from` is
reserved in Lean), nullable target column, and the two action strings. -/
structure FKRow where
  id : Int
  table : String
  from_ : String
  to_ : Option String
  on_update : String
  on_delete : String
  deriving DecidableEq

/-- Embedding of `ForeignKeyInfo` (src/table.rs:66-73); `from` is renamed
`from_`. -/
structure ForeignKeyInfo where
  to_table : String
  from_ : List String
  to_ : List String
  on_update : String
  on_delete : String
  deriving DecidableEq

/-- Embedding of `ForeignKeyInfo::new` (src/table.rs:75-85). -/
def ForeignKeyInfo.new : ForeignKeyInfo :=
  ⟨"", [], [], "NO ACTION", "NO ACTION"⟩

/-- One iteration of the accumulation in `ForeignKeys::from_rows`
(src/table.rs:103-108): overwrite target table and actions, append the
column pair (a missing target column becomes `""`). -/
def mergeRow (current : ForeignKeyInfo) (row : FKRow) : ForeignKeyInfo :=
  { to_table := row.table
    from_ := current.from_ ++ [row.from_]
    to_ := current.to_ ++ [row.to_.getD ""]
    on_update := row.on_update
    on_delete := row.on_delete }

/-- Embedding of the `while` loop of `ForeignKeys::from_rows`
(src/table.rs:96-112), with the loop state (current id, open constraint,
result list) passed explicitly; the trailing `if` closes the last open
constraint when it has columns. -/
def fromRowsGo : List FKRow → Int → ForeignKeyInfo → List ForeignKeyInfo → List ForeignKeyInfo
  | [], _, current, l => if current.from_.length > 0 then l ++ [current] else l
  | row :: rest, current_id, current, l =>
    if row.id = current_id then
      fromRowsGo rest current_id (mergeRow current row) l
    else
      fromRowsGo rest row.id (mergeRow ForeignKeyInfo.new row) (l ++ [current])

/-- Embedding of `ForeignKeys` (src/table.rs:87-89). -/
structure ForeignKeys where
  list : List ForeignKeyInfo
  deriving DecidableEq

/-- Embedding of `ForeignKeys::from_rows` (src/table.rs:92-114): the loop
starts with id 0 and an empty open constraint. -/
def ForeignKeys.from_rows (rows : List FKRow) : ForeignKeys :=
  ⟨fromRowsGo rows 0 ForeignKeyInfo.new []⟩

/-- Embedding of `ForeignKeys::for_name` (src/table.rs:116-123): first
constraint whose source column list is exactly the given single column. -/
def ForeignKeys.for_name (fks : ForeignKeys) (name : String) : Option ForeignKeyInfo :=
  fks.list.find? (fun fk => fk.from_.length == 1 && fk.from_.head? == some name)

/-- Embedding of `ForeignKeys::multicolumn` (src/table.rs:125-133). -/
def ForeignKeys.multicolumn (fks : ForeignKeys) : List ForeignKeyInfo :=
  fks.list.filter (fun fk => decide (1 < fk.from_.length))

/-- Merge of one whole constraint group, used to state what `from_rows`
computes for the rows of a single constraint id. -/
def mergeGroup (g : List FKRow) : ForeignKeyInfo :=
  g.foldl mergeRow ForeignKeyInfo.new

/-- Grouping of consecutive rows with the same constraint id: the open
group `acc` (with id `cid`) is extended while the id repeats and closed
when it changes. -/
def chunkAux : Int → List FKRow → List FKRow → List (List FKRow)
  | _, acc, [] => [acc]
  | cid, acc, r :: rest =>
    if r.id = cid then chunkAux cid (acc ++ [r]) rest
    else acc :: chunkAux r.id [r] rest

/-- Rows grouped into maximal runs of equal constraint id. -/
def chunkById : List FKRow → List (List FKRow)
  | [] => []
  | r :: rest => chunkAux r.id [r] rest

/-- Tail of the `from_rows` loop viewed without the already-closed result
list: the constraints still to be produced from the open constraint
`current` (with id `cid`) and the remaining rows. -/
def finishRuns : ForeignKeyInfo → Int → List FKRow → List ForeignKeyInfo
  | current, _, [] => if current.from_.length > 0 then [current] else []
  | current, cid, row :: rest =>
    if row.id = cid then finishRuns (mergeRow current row) cid rest
    else current :: finishRuns (mergeRow ForeignKeyInfo.new row) row.id rest

/-- A foreign-key row list whose first row does not carry constraint id 0;
`pragma_foreign_key_list` numbers constraints from 0, so `from_rows` never
sees such input from the catalog. -/
def fkRowBad : FKRow :=
  ⟨1, "t", "x", some "y", "NO ACTION", "NO ACTION"⟩

/-- Catalog rows of the two-column foreign key `(a, b) REFERENCES
multi_pk (a, b)` from the repository's test schema. -/
def fkRows0 : List FKRow :=
  [⟨0, "multi_pk", "a", some "a", "NO ACTION", "NO ACTION"⟩,
   ⟨0, "multi_pk", "b", some "b", "NO ACTION", "NO ACTION"⟩]

/-- Catalog rows of a single-column foreign key `a REFERENCES t (x)`. -/
def fkRows1 : List FKRow :=
  [⟨0, "t", "a", some "x", "NO ACTION", "NO ACTION"⟩]

/-- The constraint that `from_rows` builds from `fkRows1`. -/
def fkSingle : ForeignKeyInfo :=
  ⟨"t", ["a"], ["x"], "NO ACTION", "NO ACTION"⟩

/-- Row of `pragma_table_list` as consumed by `get_table_names` and the
lookup helpers: schema, object name and object type (`type` in SQLite,
renamed because `type` is reserved in Lean). -/
structure TableListEntry where
  schema : String
  name : String
  ttype : String
  deriving DecidableEq

/-- SQLite `LIKE 'sqlite_%'` applied to a name, as in the WHERE clauses of
`get_table_names` (src/table.rs:292-298): LIKE is ASCII case-insensitive,
`_` matches any single character and `%` any sequence, so this fixed
pattern matches exactly the names whose first six characters fold to
`sqlite` followed by at least one more character. -/
def likeSqliteUnd (s : String) : Bool :=
  let cs := s.data.map Char.toLower
  (cs.take 6 == "sqlite".data) && Nat.blt 6 cs.length

/-- First WHERE clause of `get_table_names`:
`type IN ('table', 'virtual') AND NOT name LIKE 'sqlite_%'`. -/
def matchesDefaultClause (e : TableListEntry) : Bool :=
  (e.ttype == "table" || e.ttype == "virtual") && !likeSqliteUnd e.name

/-- Second WHERE clause of `get_table_names`: `type = 'shadow'`. -/
def matchesShadowClause (e : TableListEntry) : Bool :=
  e.ttype == "shadow"

/-- Third WHERE clause of `get_table_names`:
`name LIKE 'sqlite_%' AND schema != 'temp'`. -/
def matchesSystemClause (e : TableListEntry) : Bool :=
  likeSqliteUnd e.name && e.schema != "temp"

/-- Embedding of `get_table_names` (src/table.rs:289-310): names matching
the default clause, followed — only when `inc_hidden` is set — by shadow
tables and then by non-temp `sqlite_%` tables, one query per clause. -/
def get_table_names (catalog : List TableListEntry) (inc_hidden : Bool) : List String :=
  let where_clauses :=
    if inc_hidden then [matchesDefaultClause, matchesShadowClause, matchesSystemClause]
    else [matchesDefaultClause]
  where_clauses.foldl (fun acc c => acc ++ (catalog.filter c).map TableListEntry.name) []

/-- The `sqlparser` column options inspected by `Table::get_gencol_expr`:
a `Generated` option optionally carrying a generation expression (stored
here already rendered to text, as `format!("{}", e)` produces it), or any
other option. -/
inductive ColumnOption where
  | Generated (generation_expr : Option String)
  | OtherOption
  deriving DecidableEq

/-- The `sqlparser` column definition: a name and its option list. -/
structure ColumnDef where
  name : String
  options : List ColumnOption
  deriving DecidableEq

/-- The `sqlparser` statements inspected by the Rust code
(`CreateTable`, `CreateVirtualTable`, `CreateView`); all other statement
forms are collapsed into `OtherStmt`.  Parsing itself is an external
collaborator, so parse results are passed in explicitly, `none` standing
for a parse error (`if let Ok(ast) = Parser::parse_sql ...`). -/
inductive Statement where
  | CreateTable (columns : List ColumnDef)
  | CreateVirtualTable (module_name : String)
  | CreateView (query : String)
  | OtherStmt
  deriving DecidableEq

/-- Embedding of `self.name.starts_with("sqlite_")`, written on character
lists so it evaluates by kernel reduction. -/
def starts_with_sqlite (name : String) : Bool :=
  "sqlite_".data.isPrefixOf name.data

/-- Embedding of `Table::virtual_using` (src/table.rs:178-188), with the
parse result of the object's creation statement passed in: names with the
system prefix report no module; otherwise the module name of a leading
`CREATE VIRTUAL TABLE` statement is returned. -/
def virtual_using (name : String) (parsed : Option (List Statement)) : Option String :=
  if starts_with_sqlite name then none
  else
    match parsed with
    | some ast =>
      match ast.head? with
      | some (Statement.CreateVirtualTable m) => some m
      | _ => none
    | none => none

/-- `pragma_table_list` contents for the repository's test schema,
restricted to what Claim C3 exercises: the fts5 virtual table `email`,
the shadow tables fts5 creates for it, and the system schema tables. -/
def fts5Catalog : List TableListEntry :=
  [⟨"main", "email", "virtual"⟩,
   ⟨"main", "email_data", "shadow"⟩,
   ⟨"main", "email_idx", "shadow"⟩,
   ⟨"main", "email_content", "shadow"⟩,
   ⟨"main", "email_docsize", "shadow"⟩,
   ⟨"main", "email_config", "shadow"⟩,
   ⟨"main", "sqlite_schema", "table"⟩,
   ⟨"temp", "sqlite_temp_schema", "table"⟩]

/-- Embedding of Rust's `str::lines` as used by the paging decision:
split the character data on `'\n'`, a trailing newline producing no
trailing empty line. -/
def splitNl : List Char → List (List Char)
  | [] => [[]]
  | c :: cs =>
    if c = '\n' then [] :: splitNl cs
    else
      match splitNl cs with
      | [] => [[c]]
      | p :: ps => (c :: p) :: ps

/-- Rust `output.lines()` collected to a list (each line as characters,
so that a line's `length` is Rust's `chars().count()`). -/
def rustLines (s : String) : List (List Char) :=
  let parts := splitNl s.data
  if parts.getLast? = some [] then parts.dropLast else parts

/-- The two ways `inspect_table` / `inspect_schema` emit the rendered
report: directly via `println!`, or through the `less` pager. -/
inductive OutputMode where
  | Direct
  | Paged
  deriving DecidableEq

/-- Embedding of the paging decision of `inspect_table`
(src/main.rs:164-178): on a terminal, page when the second line (the top
border of the rendered grid) is wider than the terminal or the output has
more lines than the terminal has rows; `none` models the `unwrap` panic
when the output has fewer than two lines.  Off a terminal, always print
directly. -/
def inspect_table_dispatch (output : String) (is_tty : Bool) (term_cols term_rows : Nat) :
    Option OutputMode :=
  if is_tty then
    match (rustLines output)[1]? with
    | none => none
    | some line2 =>
      some (if line2.length > term_cols ∨ (rustLines output).length > term_rows
        then OutputMode.Paged else OutputMode.Direct)
  else some OutputMode.Direct

/-- Embedding of the paging decision of `inspect_schema`
(src/main.rs:349-359): only the line count is measured. -/
def inspect_schema_dispatch (output : String) (is_tty : Bool) (term_rows : Nat) : OutputMode :=
  if is_tty then
    if (rustLines output).length > term_rows then OutputMode.Paged else OutputMode.Direct
  else OutputMode.Direct

/-- Embedding of `ColumnInfo` (src/table.rs:11-18), one row of
`pragma_table_xinfo`: `pk` is the primary-key ordinal (0 = not part of the
PK) and `hidden` the hidden-kind tag (0 visible, 1 hidden, 2 generated
virtual, 3 generated stored). -/
structure ColumnInfo where
  name : String
  dtype : String
  notnull : Bool
  pk : Nat
  hidden : Nat
  deriving DecidableEq

/-- Embedding of `IndexInfo` (src/table.rs:32-38), one row of
`pragma_index_list`; the partial flag is never read by the classification
code. -/
structure IndexInfo where
  name : String
  unique : Bool
  origin : String
  is_partial : Bool
  deriving DecidableEq

/-- The four buckets filled by the index-classification loop of
`inspect_schema` (src/main.rs:197-214); the two single-column sets are
used only for membership, so lists stand in for the Rust `HashSet`s. -/
structure IndexClassification where
  cols_unique : List String
  cols_w_index : List String
  pk_cols : List String
  other_indexes : List (IndexInfo × List String)
  deriving DecidableEq

/-- One iteration of the classification loop of `inspect_schema`
(src/main.rs:201-214), given an index together with its resolved column
names: a PK-origin index sets `pk_cols`; a one-column index goes to the
unique or the indexed set; everything else is listed separately. -/
def classifyStep (st : IndexClassification) (p : IndexInfo × List String) : IndexClassification :=
  if p.1.origin = "pk" then { st with pk_cols := p.2 }
  else if p.2.length = 1 then
    if p.1.unique then { st with cols_unique := st.cols_unique ++ [p.2.headD ""] }
    else { st with cols_w_index := st.cols_w_index ++ [p.2.headD ""] }
  else { st with other_indexes := st.other_indexes ++ [p] }

/-- The classification loop over all of a table's indexes. -/
def classify_indexes (ixs : List (IndexInfo × List String)) : IndexClassification :=
  ixs.foldl classifyStep ⟨[], [], [], []⟩

/-- The constraint annotations `inspect_schema` writes after a column's
name and type (src/main.rs:261-269): `PRIMARY KEY` when the column has a
PK ordinal and the PK spans at most one column, else `UNIQUE` or `indexed`
by set membership — an `else if` chain, so at most one annotation. -/
def col_annotations (col : ColumnInfo)
    (pk_cols cols_unique cols_w_index : List String) : List String :=
  if col.pk > 0 ∧ pk_cols.length ≤ 1 then ["PRIMARY KEY"]
  else if col.name ∈ cols_unique then ["UNIQUE"]
  else if col.name ∈ cols_w_index then ["indexed"]
  else []

/-- The composite `PRIMARY KEY (...)` line `inspect_schema` emits after
the column list when the PK spans more than one column
(src/main.rs:289-291). -/
def pk_line (pk_cols : List String) : Option (List String) :=
  if pk_cols.length > 1 then some pk_cols else none

/-- `pragma_index_list` plus per-index column names for the test schema's
`multi_pk` table (`PRIMARY KEY (b, a)`): one PK-origin autoindex whose
columns appear in declared order `b, a`. -/
def multiPkIndexes : List (IndexInfo × List String) :=
  [(⟨"sqlite_autoindex_multi_pk_1", true, "pk", false⟩, ["b", "a"])]

/-- `pragma_table_xinfo` rows of `multi_pk`: PK ordinals follow the
declared PK order, so `b` has ordinal 1 and `a` ordinal 2. -/
def multiPkCols : List ColumnInfo :=
  [⟨"a", "", false, 2, 0⟩, ⟨"b", "", false, 1, 0⟩, ⟨"c", "", false, 0, 0⟩]

/-- The single `INTEGER PRIMARY KEY` (rowid alias) column of the test
schema's `"select"` table: PK ordinal 1, and the table has no PK-origin
index at all. -/
def rowidPkCol : ColumnInfo :=
  ⟨"CREATE", "INTEGER", false, 1, 0⟩

/-- Embedding of `Table::col_def_ast` (src/table.rs:257-268), with the
parse result passed in: the first statement must be a `CreateTable`, whose
column definitions are scanned for the first name match. -/
def col_def_ast (parsed : Option (List Statement)) (col_name : String) : Option ColumnDef :=
  match parsed with
  | some ast =>
    match ast.head? with
    | some (Statement.CreateTable cols) => cols.find? (fun cd => cd.name == col_name)
    | _ => none
  | none => none

/-- The scan of a column definition's options in `Table::get_gencol_expr`
(src/table.rs:273-281): the first `Generated` option carrying an
expression. -/
def firstGenExpr : List ColumnOption → Option String
  | [] => none
  | ColumnOption.Generated (some e) :: _ => some e
  | _ :: rest => firstGenExpr rest

/-- Embedding of `Table::get_gencol_expr` (src/table.rs:271-284): render
the generation expression of the named column, falling back to the
sentinel placeholder when the statement did not parse, the column was not
found, or it has no generation expression. -/
def get_gencol_expr (parsed : Option (List Statement)) (col_name : String) : String :=
  match col_def_ast parsed col_name with
  | some coldef =>
    match firstGenExpr coldef.options with
    | some e => e
    | none => "<could not get AS expression>"
  | none => "<could not get AS expression>"

/-- The `sqlparser` parse of the test schema's
`CREATE TABLE gen_cols (a NUMERIC, square AS (a * a) STORED, hexadec
GENERATED ALWAYS AS (hex(a)))`, with the generation expressions rendered
to text the way `format!` renders them. -/
def gen_cols_ast : List Statement :=
  [Statement.CreateTable
    [⟨"a", []⟩,
     ⟨"square", [ColumnOption.Generated (some "a * a")]⟩,
     ⟨"hexadec", [ColumnOption.Generated (some "hex(a)")]⟩]]

/-- Embedding of `Table::in_db` (src/table.rs:150-157): a counting query
over `pragma_table_list` restricted to the name. -/
def in_db (catalog : List TableListEntry) (name : String) : Bool :=
  decide (0 < (catalog.filter (fun e => e.name == name)).length)

/-- Outcome of `sqlite-glance file.db <table>`: either the sampled rows,
or the error carried out of `main` (which the runtime turns into a
non-zero process exit). -/
inductive CmdResult (α : Type) where
  | ok (sample : List α)
  | error (msg : String)
  deriving DecidableEq

/-- Embedding of the table branch of `main` (src/main.rs:412-420) combined
with the row sampling of `inspect_table` (src/main.rs:101-141): a missing
table yields the `No such table` error, an existing one a sample of at
most `limit` rows (`SELECT * ... LIMIT ?`). -/
def run_table_command {α : Type} (catalog : List TableListEntry) (data : List α)
    (table_name : String) (limit : Nat) : CmdResult α :=
  if in_db catalog table_name then CmdResult.ok (data.take limit)
  else CmdResult.error ("No such table: " ++ table_name)

/-- Process exit status: `anyhow` errors leaving `main` exit non-zero. -/
def exit_code {α : Type} : CmdResult α → Nat
  | CmdResult.ok _ => 0
  | CmdResult.error _ => 1

-- ### Theorems

lemma collapseQuotes_cons_ne (c : Char) (h : c ≠ '"') (rest : List Char) :
    collapseQuotes (c :: rest) = c :: collapseQuotes rest := by
  cases rest with
  | nil => rfl
  | cons d ds =>
    simp only [collapseQuotes]
    rw [if_neg]
    intro hcd
    exact h hcd.1

lemma collapseQuotes_doubleQuotes (l : List Char) :
    collapseQuotes (doubleQuotes l) = l := by
  induction l with
  | nil => rfl
  | cons c cs ih =>
    by_cases h : c = '"'
    · subst h
      simp [doubleQuotes, collapseQuotes, ih]
    · simp only [doubleQuotes, if_neg h]
      rw [collapseQuotes_cons_ne c h, ih]

lemma escaped_name_quoted (name : String)
    (hcond : (name.data.all is_valid_ident_char && !is_keyword name) = false) :
    escaped_name name = "\"" ++ replaceQuote name ++ "\"" := by
  simp only [escaped_name]
  rw [if_neg]
  simp [hcond]

lemma data_quoted (name : String) :
    ("\"" ++ replaceQuote name ++ "\"").data = '"' :: (doubleQuotes name.data ++ ['"']) := by
  have h1 : ("\"" ++ replaceQuote name ++ "\"").data
      = "\"".data ++ (replaceQuote name).data ++ "\"".data := by
    simp
  rw [h1]
  rfl

/-- Claim C1: a name of only ASCII alphanumerics/underscore that is not a
keyword is returned unchanged by `escaped_name`; any other name is returned
delimited by double quotes with embedded double quotes doubled, and
un-escaping the result (strip delimiters, collapse doubled quotes) gives
back the original name. -/
theorem C1_escaped_name_correct (name : String) :
    (name.data.all is_valid_ident_char = true → is_keyword name = false →
      escaped_name name = name)
    ∧ (name.data.all is_valid_ident_char = false ∨ is_keyword name = true →
      (escaped_name name).data = '"' :: (doubleQuotes name.data ++ ['"'])
      ∧ unescape_name (escaped_name name) = name) := by
  constructor
  · intro h1 h2
    simp [escaped_name, h1, h2]
  · intro hor
    have hcond : (name.data.all is_valid_ident_char && !is_keyword name) = false := by
      rcases hor with h | h <;> simp [h]
    have heq := escaped_name_quoted name hcond
    rw [heq]
    refine ⟨data_quoted name, ?_⟩
    simp only [unescape_name, data_quoted name]
    rw [List.drop_one, List.tail_cons, List.dropLast_concat,
      collapseQuotes_doubleQuotes]

/-- Concrete instances of Claim C1: the plain name `t1` is unchanged, a
keyword and a name with quote and newline characters are quoted and
round-trip through un-escaping. -/
theorem C1_escaped_name_correct_witness :
    escaped_name "t1" = "t1"
    ∧ unescape_name (escaped_name "select") = "select"
    ∧ unescape_name (escaped_name "foo \n\"bar") = "foo \n\"bar" :=
  ⟨(C1_escaped_name_correct "t1").1 (by decide) (by decide),
   ((C1_escaped_name_correct "select").2 (Or.inr (by decide))).2,
   ((C1_escaped_name_correct "foo \n\"bar").2 (Or.inl (by decide))).2⟩

lemma fromRowsGo_eq_append (rows : List FKRow) :
    ∀ (cid : Int) (current : ForeignKeyInfo) (l : List ForeignKeyInfo),
      fromRowsGo rows cid current l = l ++ finishRuns current cid rows := by
  induction rows with
  | nil =>
    intro cid current l
    simp only [fromRowsGo, finishRuns]
    split <;> simp
  | cons r rest ih =>
    intro cid current l
    simp only [fromRowsGo, finishRuns]
    by_cases h : r.id = cid
    · rw [if_pos h, if_pos h, ih]
    · rw [if_neg h, if_neg h, ih]
      simp

lemma foldl_mergeRow_from (g : List FKRow) :
    ∀ i, (g.foldl mergeRow i).from_ = i.from_ ++ g.map FKRow.from_ := by
  induction g with
  | nil => intro i; simp
  | cons r rest ih =>
    intro i
    simp only [List.foldl_cons, List.map_cons, ih, mergeRow]
    simp

lemma foldl_mergeRow_to (g : List FKRow) :
    ∀ i, (g.foldl mergeRow i).to_ = i.to_ ++ g.map (fun r => r.to_.getD "") := by
  induction g with
  | nil => intro i; simp
  | cons r rest ih =>
    intro i
    simp only [List.foldl_cons, List.map_cons, ih, mergeRow]
    simp

lemma foldl_mergeRow_last (g : List FKRow) :
    ∀ i last, g.getLast? = some last →
      (g.foldl mergeRow i).on_update = last.on_update
      ∧ (g.foldl mergeRow i).on_delete = last.on_delete
      ∧ (g.foldl mergeRow i).to_table = last.table := by
  induction g with
  | nil => intro i last h; simp at h
  | cons r rest ih =>
    intro i last h
    cases rest with
    | nil =>
      simp at h
      subst h
      exact ⟨rfl, rfl, rfl⟩
    | cons r2 rest2 =>
      rw [List.getLast?_cons_cons] at h
      simpa using ih (mergeRow i r) last h

lemma mergeGroup_from_ne_nil (acc : List FKRow) (hacc : acc ≠ []) :
    (mergeGroup acc).from_.length > 0 := by
  rw [mergeGroup, foldl_mergeRow_from]
  simp [List.length_pos, hacc]

lemma finishRuns_chunkAux (rows : List FKRow) :
    ∀ (cid : Int) (acc : List FKRow), acc ≠ [] →
      finishRuns (mergeGroup acc) cid rows = (chunkAux cid acc rows).map mergeGroup := by
  induction rows with
  | nil =>
    intro cid acc hacc
    simp only [finishRuns, chunkAux]
    rw [if_pos (mergeGroup_from_ne_nil acc hacc)]
    simp
  | cons r rest ih =>
    intro cid acc hacc
    simp only [finishRuns, chunkAux]
    by_cases h : r.id = cid
    · rw [if_pos h, if_pos h]
      have hm : mergeRow (mergeGroup acc) r = mergeGroup (acc ++ [r]) := by
        simp [mergeGroup, List.foldl_append]
      rw [hm, ih cid (acc ++ [r]) (by simp)]
    · rw [if_neg h, if_neg h]
      have hm : mergeRow ForeignKeyInfo.new r = mergeGroup [r] := rfl
      rw [hm, ih r.id [r] (by simp)]
      simp

lemma from_rows_eq_chunks (rows : List FKRow)
    (hfirst : ∀ r ∈ rows.take 1, r.id = 0) :
    (ForeignKeys.from_rows rows).list = (chunkById rows).map mergeGroup := by
  cases rows with
  | nil => rfl
  | cons r rest =>
    have hr : r.id = 0 := hfirst r (by simp)
    show fromRowsGo (r :: rest) 0 ForeignKeyInfo.new [] = _
    rw [fromRowsGo_eq_append, List.nil_append]
    simp only [finishRuns]
    rw [if_pos hr]
    have hm : mergeRow ForeignKeyInfo.new r = mergeGroup [r] := rfl
    rw [hm, finishRuns_chunkAux rest 0 [r] (by simp)]
    simp only [chunkById, hr]

lemma chunkAux_flatten (rows : List FKRow) :
    ∀ (cid : Int) (acc : List FKRow), (chunkAux cid acc rows).flatten = acc ++ rows := by
  induction rows with
  | nil => intro cid acc; simp [chunkAux]
  | cons r rest ih =>
    intro cid acc
    simp only [chunkAux]
    by_cases h : r.id = cid
    · rw [if_pos h, ih]
      simp
    · rw [if_neg h]
      simp [ih]

lemma chunkAux_ne_nil (rows : List FKRow) :
    ∀ (cid : Int) (acc : List FKRow), acc ≠ [] →
      ∀ g ∈ chunkAux cid acc rows, g ≠ [] := by
  induction rows with
  | nil =>
    intro cid acc hacc g hg
    simp [chunkAux] at hg
    subst hg
    exact hacc
  | cons r rest ih =>
    intro cid acc hacc g hg
    simp only [chunkAux] at hg
    by_cases h : r.id = cid
    · rw [if_pos h] at hg
      exact ih cid (acc ++ [r]) (by simp) g hg
    · rw [if_neg h] at hg
      rcases List.mem_cons.mp hg with hga | hgr
      · subst hga; exact hacc
      · exact ih r.id [r] (by simp) g hgr

lemma chunkAux_id_eq (rows : List FKRow) :
    ∀ (cid : Int) (acc : List FKRow), (∀ a ∈ acc, a.id = cid) →
      ∀ g ∈ chunkAux cid acc rows, ∀ a ∈ g, ∀ b ∈ g, a.id = b.id := by
  induction rows with
  | nil =>
    intro cid acc hacc g hg a ha b hb
    simp [chunkAux] at hg
    subst hg
    rw [hacc a ha, hacc b hb]
  | cons r rest ih =>
    intro cid acc hacc g hg a ha b hb
    simp only [chunkAux] at hg
    by_cases h : r.id = cid
    · rw [if_pos h] at hg
      refine ih cid (acc ++ [r]) ?_ g hg a ha b hb
      intro x hx
      rcases List.mem_append.mp hx with hx' | hx'
      · exact hacc x hx'
      · simp at hx'
        subst hx'
        exact h
    · rw [if_neg h] at hg
      rcases List.mem_cons.mp hg with hga | hgr
      · subst hga
        rw [hacc a ha, hacc b hb]
      · refine ih r.id [r] ?_ g hgr a ha b hb
        intro x hx
        simp at hx
        subst hx
        rfl

lemma chunkAux_id_ge (rows : List FKRow) :
    ∀ (cid : Int) (acc : List FKRow), (∀ a ∈ acc, a.id = cid) →
      List.Chain' (fun a b => a ≤ b) (cid :: rows.map FKRow.id) →
      ∀ g ∈ chunkAux cid acc rows, ∀ a ∈ g, cid ≤ a.id := by
  induction rows with
  | nil =>
    intro cid acc hacc _ g hg a ha
    simp [chunkAux] at hg
    subst hg
    rw [hacc a ha]
  | cons r rest ih =>
    intro cid acc hacc hchain g hg a ha
    simp only [List.map_cons, List.chain'_cons] at hchain
    obtain ⟨hle, hchain'⟩ := hchain
    simp only [chunkAux] at hg
    by_cases h : r.id = cid
    · rw [if_pos h] at hg
      refine ih cid (acc ++ [r]) ?_ ?_ g hg a ha
      · intro x hx
        rcases List.mem_append.mp hx with hx' | hx'
        · exact hacc x hx'
        · simp at hx'; subst hx'; exact h
      · rw [← h]
        exact hchain'
    · rw [if_neg h] at hg
      rcases List.mem_cons.mp hg with hga | hgr
      · subst hga
        rw [hacc a ha]
      · have := ih r.id [r] (by intro x hx; simp at hx; subst hx; rfl) hchain' g hgr a ha
        exact le_trans hle this

lemma chunkAux_pairwise (rows : List FKRow) :
    ∀ (cid : Int) (acc : List FKRow), (∀ a ∈ acc, a.id = cid) →
      List.Chain' (fun a b => a ≤ b) (cid :: rows.map FKRow.id) →
      (chunkAux cid acc rows).Pairwise
        (fun g h => ∀ a ∈ g, ∀ b ∈ h, a.id ≠ b.id) := by
  induction rows with
  | nil =>
    intro cid acc _ _
    simp [chunkAux]
  | cons r rest ih =>
    intro cid acc hacc hchain
    have hchain0 := hchain
    simp only [List.map_cons, List.chain'_cons] at hchain
    obtain ⟨hle, hchain'⟩ := hchain
    simp only [chunkAux]
    by_cases h : r.id = cid
    · rw [if_pos h]
      refine ih cid (acc ++ [r]) ?_ ?_
      · intro x hx
        rcases List.mem_append.mp hx with hx' | hx'
        · exact hacc x hx'
        · simp at hx'; subst hx'; exact h
      · rw [← h]; exact hchain'
    · rw [if_neg h]
      have hlt : cid < FKRow.id r := lt_of_le_of_ne hle (fun he => h he.symm)
      rw [List.pairwise_cons]
      constructor
      · intro g hg a ha b hb
        have hge := chunkAux_id_ge rest r.id [r]
          (by intro x hx; simp at hx; subst hx; rfl) hchain' g hg b hb
        rw [hacc a ha]
        exact ne_of_lt (lt_of_lt_of_le hlt hge)
      · exact ih r.id [r] (by intro x hx; simp at hx; subst hx; rfl) hchain'

/-- Claim C2 (amended): for rows in id-then-sequence order whose first row
carries constraint id 0 (as `pragma_foreign_key_list` numbers them),
`from_rows` produces exactly the per-run merge: one constraint per maximal
run of equal ids (one per distinct id, since sorted input puts each id in
exactly one run), each accumulating its rows' source/target column pairs
in row order and the last-seen action strings and target table, and the
result never contains an empty constraint. -/
theorem C2_from_rows_amended (rows : List FKRow)
    (hsorted : List.Chain' (fun a b => a ≤ b) (rows.map FKRow.id))
    (hfirst : ∀ r ∈ rows.take 1, r.id = 0) :
    (ForeignKeys.from_rows rows).list = (chunkById rows).map mergeGroup
    ∧ (chunkById rows).flatten = rows
    ∧ (∀ g ∈ chunkById rows, g ≠ [] ∧ ∀ a ∈ g, ∀ b ∈ g, a.id = b.id)
    ∧ (chunkById rows).Pairwise (fun g h => ∀ a ∈ g, ∀ b ∈ h, a.id ≠ b.id)
    ∧ (∀ g : List FKRow, (mergeGroup g).from_ = g.map FKRow.from_
        ∧ (mergeGroup g).to_ = g.map (fun r => r.to_.getD ""))
    ∧ (∀ (g : List FKRow) (last : FKRow), g.getLast? = some last →
        (mergeGroup g).on_update = last.on_update
        ∧ (mergeGroup g).on_delete = last.on_delete
        ∧ (mergeGroup g).to_table = last.table)
    ∧ (∀ fk ∈ (ForeignKeys.from_rows rows).list, fk.from_ ≠ []) := by
  have heq := from_rows_eq_chunks rows hfirst
  have hne : ∀ g ∈ chunkById rows, g ≠ [] := by
    cases rows with
    | nil => simp [chunkById]
    | cons r rest => exact chunkAux_ne_nil rest r.id [r] (by simp)
  refine ⟨heq, ?_, ?_, ?_, ?_, ?_, ?_⟩
  · cases rows with
    | nil => rfl
    | cons r rest =>
      simp only [chunkById]
      rw [chunkAux_flatten]
      rfl
  · intro g hg
    refine ⟨hne g hg, ?_⟩
    cases rows with
    | nil => simp [chunkById] at hg
    | cons r rest =>
      simp only [chunkById] at hg
      exact chunkAux_id_eq rest r.id [r] (by intro x hx; simp at hx; subst hx; rfl) g hg
  · cases rows with
    | nil => simp [chunkById]
    | cons r rest =>
      simp only [chunkById]
      simp only [List.map_cons] at hsorted
      exact chunkAux_pairwise rest r.id [r]
        (by intro x hx; simp at hx; subst hx; rfl) hsorted
  · intro g
    exact ⟨by rw [mergeGroup, foldl_mergeRow_from]; rfl,
      by rw [mergeGroup, foldl_mergeRow_to]; rfl⟩
  · intro g last h
    exact foldl_mergeRow_last g ForeignKeyInfo.new last h
  · intro fk hfk
    rw [heq] at hfk
    rcases List.mem_map.mp hfk with ⟨g, hg, hfk'⟩
    subst hfk'
    have h1 := mergeGroup_from_ne_nil g (hne g hg)
    intro hnil
    rw [hnil] at h1
    simp at h1

/-- Counterexample to Claim C2 as stated: a single foreign-key row with
constraint id 1 is in id-then-sequence order, yet `from_rows` emits the
initial empty placeholder (a constraint with no columns) ahead of the real
constraint, and one distinct id yields two constraints. -/
theorem C2_from_rows_counterexample :
    (ForeignKeys.from_rows [fkRowBad]).list.head? = some ForeignKeyInfo.new
    ∧ ForeignKeyInfo.new.from_ = []
    ∧ (ForeignKeys.from_rows [fkRowBad]).list.length = 2 :=
  ⟨rfl, rfl, rfl⟩

/-- Concrete instance of Claim C2 (amended) at the catalog rows of the
test schema's two-column foreign key. -/
theorem C2_from_rows_amended_witness :
    (ForeignKeys.from_rows fkRows0).list = (chunkById fkRows0).map mergeGroup :=
  (C2_from_rows_amended fkRows0 (by simp [fkRows0, List.chain'_cons]) (by decide)).1

/-- Claim C7: `for_name` only ever returns a constraint whose source
column list is exactly the queried column (and, returning an `Option`, at
most one match); `multicolumn` returns exactly the constraints spanning
more than one source column; on the two-column foreign key `(a, b)
REFERENCES multi_pk (a, b)`, `for_name "a"` is `none` and `multicolumn`
is exactly that constraint. -/
theorem C7_fk_queries :
    (∀ (fks : ForeignKeys) (c : String) (fk : ForeignKeyInfo),
      fks.for_name c = some fk → fk.from_ = [c])
    ∧ (∀ (fks : ForeignKeys) (fk : ForeignKeyInfo),
      fk ∈ fks.multicolumn ↔ fk ∈ fks.list ∧ 1 < fk.from_.length)
    ∧ (ForeignKeys.from_rows fkRows0).for_name "a" = none
    ∧ (ForeignKeys.from_rows fkRows0).multicolumn
        = [⟨"multi_pk", ["a", "b"], ["a", "b"], "NO ACTION", "NO ACTION"⟩] := by
  refine ⟨?_, ?_, by decide, by decide⟩
  · intro fks c fk h
    have hp := List.find?_some h
    simp only [Bool.and_eq_true, beq_iff_eq] at hp
    obtain ⟨h1, h2⟩ := hp
    rcases List.length_eq_one.mp h1 with ⟨x, hx⟩
    rw [hx] at h2 ⊢
    simp at h2
    rw [h2]
  · intro fks fk
    simp [ForeignKeys.multicolumn, List.mem_filter]

/-- Concrete instance of Claim C7: on a single-column foreign key,
`for_name` returns that constraint, whose source list is exactly the
queried column. -/
theorem C7_fk_queries_witness : fkSingle.from_ = ["a"] :=
  C7_fk_queries.1 (ForeignKeys.from_rows fkRows1) "a" fkSingle (by decide)

/-- Claim C10: the empty string passes the all-characters-valid check
vacuously, is not a keyword, and is returned unchanged and unquoted by
`escaped_name`. -/
theorem C10_escaped_name_empty :
    escaped_name "" = ""
    ∧ "".data.all is_valid_ident_char = true
    ∧ is_keyword "" = false := by
  refine ⟨?_, rfl, ?_⟩ <;> decide

/-- Counterexample to Claim C3 as stated: with hidden-inclusion enabled,
`get_table_names` runs the extra clause `name LIKE 'sqlite_%' AND schema
!= 'temp'`, so the system table `sqlite_schema` does appear in the
listing. -/
theorem C3_counterexample :
    "sqlite_schema" ∈ get_table_names fts5Catalog true := by
  decide

/-- Claim C3 (amended): the fts5 virtual table reports module `fts5`; its
shadow tables are excluded from the default listing and appear with
hidden-inclusion; `sqlite_`-named system tables never appear in the
default listing (for any catalog), while with hidden-inclusion the
non-temp ones are appended. -/
theorem C3_table_listing_amended :
    virtual_using "email" (some [Statement.CreateVirtualTable "fts5"]) = some "fts5"
    ∧ "email" ∈ get_table_names fts5Catalog false
    ∧ "email_data" ∉ get_table_names fts5Catalog false
    ∧ "email_config" ∉ get_table_names fts5Catalog false
    ∧ "sqlite_schema" ∉ get_table_names fts5Catalog false
    ∧ "email_data" ∈ get_table_names fts5Catalog true
    ∧ "sqlite_schema" ∈ get_table_names fts5Catalog true
    ∧ "sqlite_temp_schema" ∉ get_table_names fts5Catalog true
    ∧ (∀ (catalog : List TableListEntry) (n : String),
        n ∈ get_table_names catalog false → likeSqliteUnd n = false)
    ∧ (∀ (catalog : List TableListEntry) (n : String),
        n ∈ get_table_names catalog false →
        ∃ e ∈ catalog, e.name = n ∧ (e.ttype = "table" ∨ e.ttype = "virtual")) := by
  refine ⟨by decide, by decide, by decide, by decide, by decide, by decide,
    by decide, by decide, ?_, ?_⟩
  · intro catalog n h
    have hd : get_table_names catalog false
        = (catalog.filter matchesDefaultClause).map TableListEntry.name := rfl
    rw [hd] at h
    rcases List.mem_map.mp h with ⟨e, he, hn⟩
    have hm := (List.mem_filter.mp he).2
    simp only [matchesDefaultClause, Bool.and_eq_true, Bool.not_eq_true'] at hm
    rw [← hn]
    exact hm.2
  · intro catalog n h
    have hd : get_table_names catalog false
        = (catalog.filter matchesDefaultClause).map TableListEntry.name := rfl
    rw [hd] at h
    rcases List.mem_map.mp h with ⟨e, he, hn⟩
    have he' := List.mem_filter.mp he
    have hm := he'.2
    simp only [matchesDefaultClause, Bool.and_eq_true, Bool.or_eq_true,
      beq_iff_eq] at hm
    exact ⟨e, he'.1, hn, hm.1⟩

/-- Concrete instance of the universally quantified part of Claim C3
(amended): the name `email`, present in the default listing, does not
match `LIKE 'sqlite_%'`. -/
theorem C3_table_listing_amended_witness :
    likeSqliteUnd "email" = false :=
  (C3_table_listing_amended.2.2.2.2.2.2.2.2.1) fts5Catalog "email" (by decide)

/-- Claim C4: on an interactive terminal the rendered table report is
paged exactly when its second line (the grid's top border) is wider than
the terminal or it has more lines than the terminal has rows, and the
schema report exactly when it has more lines than the terminal has rows;
off a terminal both are always printed directly. -/
theorem C4_pager_decision :
    (∀ (output : String) (cols rows : Nat) (line2 : List Char),
      (rustLines output)[1]? = some line2 →
      (inspect_table_dispatch output true cols rows = some OutputMode.Paged
        ↔ (line2.length > cols ∨ (rustLines output).length > rows)))
    ∧ (∀ (output : String) (cols rows : Nat),
      inspect_table_dispatch output false cols rows = some OutputMode.Direct)
    ∧ (∀ (output : String) (rows : Nat),
      (inspect_schema_dispatch output true rows = OutputMode.Paged
        ↔ (rustLines output).length > rows))
    ∧ (∀ (output : String) (rows : Nat),
      inspect_schema_dispatch output false rows = OutputMode.Direct) := by
  refine ⟨?_, ?_, ?_, ?_⟩
  · intro output cols rows line2 h
    simp only [inspect_table_dispatch, if_true]
    rw [h]
    by_cases hc : line2.length > cols ∨ (rustLines output).length > rows
    · simp [hc]
    · simp [hc]
  · intro output cols rows
    simp [inspect_table_dispatch]
  · intro output rows
    simp only [inspect_schema_dispatch, if_true]
    by_cases hc : (rustLines output).length > rows
    · simp [hc]
    · simp [hc]
  · intro output rows
    simp [inspect_schema_dispatch]

/-- Concrete instance of Claim C4: a three-line report whose second line
has five characters is paged on a 4-column, 100-row terminal. -/
theorem C4_pager_decision_witness :
    inspect_table_dispatch "a\n12345\nb" true 4 100 = some OutputMode.Paged :=
  (C4_pager_decision.1 "a\n12345\nb" 4 100 "12345".data (by decide)).mpr
    (by decide)

/-- Claim C5: for `multi_pk` (`PRIMARY KEY (b, a)`), classification takes
the PK columns from the PK-origin index in declared order `b, a`, the
composite PRIMARY KEY line lists `b, a`, and no column receives the
per-column PRIMARY KEY annotation; for the single-column integer rowid PK
(no PK-origin index, one column with PK ordinal 1), the column is
annotated PRIMARY KEY and no composite line is emitted. -/
theorem C5_primary_key_reporting :
    (classify_indexes multiPkIndexes).pk_cols = ["b", "a"]
    ∧ pk_line (classify_indexes multiPkIndexes).pk_cols = some ["b", "a"]
    ∧ (multiPkCols.all fun c =>
        decide ("PRIMARY KEY" ∉ col_annotations c
          (classify_indexes multiPkIndexes).pk_cols
          (classify_indexes multiPkIndexes).cols_unique
          (classify_indexes multiPkIndexes).cols_w_index)) = true
    ∧ (classify_indexes []).pk_cols = []
    ∧ col_annotations rowidPkCol (classify_indexes []).pk_cols
        (classify_indexes []).cols_unique (classify_indexes []).cols_w_index
        = ["PRIMARY KEY"]
    ∧ pk_line (classify_indexes []).pk_cols = none := by
  refine ⟨rfl, by decide, by decide, rfl, by decide, by decide⟩

/-- Claim C6: a column line never carries the PRIMARY KEY annotation
together with UNIQUE or indexed, and whenever a column qualifies for the
per-column PRIMARY KEY annotation that annotation is the only one
emitted. -/
theorem C6_pk_annotation_precedence (col : ColumnInfo)
    (pk_cols cols_unique cols_w_index : List String) :
    ¬("PRIMARY KEY" ∈ col_annotations col pk_cols cols_unique cols_w_index
      ∧ ("UNIQUE" ∈ col_annotations col pk_cols cols_unique cols_w_index
        ∨ "indexed" ∈ col_annotations col pk_cols cols_unique cols_w_index))
    ∧ (col.pk > 0 → pk_cols.length ≤ 1 →
      col_annotations col pk_cols cols_unique cols_w_index = ["PRIMARY KEY"]) := by
  constructor
  · intro hpair
    obtain ⟨h1, h2⟩ := hpair
    simp only [col_annotations] at h1 h2
    split_ifs at h1 h2 <;> revert h1 h2 <;> decide
  · intro h1 h2
    simp only [col_annotations]
    rw [if_pos ⟨h1, h2⟩]

/-- Concrete instance of Claim C6: a column with PK ordinal 1 that is also
in the unique set is annotated PRIMARY KEY only. -/
theorem C6_pk_annotation_precedence_witness :
    col_annotations ⟨"id", "", false, 1, 0⟩ [] ["id"] [] = ["PRIMARY KEY"] :=
  (C6_pk_annotation_precedence ⟨"id", "", false, 1, 0⟩ [] ["id"] []).2
    (by decide) (by decide)

/-- Counterexample to Claim C8 as stated: the sentinel the code returns on
a parse failure is the literal `<could not get AS expression>`, not the
claimed `could not recover expression`. -/
theorem C8_gencol_counterexample :
    get_gencol_expr none "square" = "<could not get AS expression>"
    ∧ "<could not get AS expression>" ≠ "could not recover expression" :=
  ⟨rfl, by decide⟩

/-- Claim C8 (amended): expression extraction never fails: on a parse
error, a missing column definition, or a definition without a generation
expression it returns the sentinel placeholder `<could not get AS
expression>`; on the test schema's `gen_cols` it returns `a * a` for
`square` and `hex(a)` for `hexadec`. -/
theorem C8_gencol_amended :
    (∀ name : String, get_gencol_expr none name = "<could not get AS expression>")
    ∧ (∀ (parsed : Option (List Statement)) (name : String),
      col_def_ast parsed name = none →
      get_gencol_expr parsed name = "<could not get AS expression>")
    ∧ (∀ (parsed : Option (List Statement)) (name : String) (cd : ColumnDef),
      col_def_ast parsed name = some cd → firstGenExpr cd.options = none →
      get_gencol_expr parsed name = "<could not get AS expression>")
    ∧ get_gencol_expr (some gen_cols_ast) "square" = "a * a"
    ∧ get_gencol_expr (some gen_cols_ast) "hexadec" = "hex(a)" := by
  refine ⟨fun name => rfl, ?_, ?_, by decide, by decide⟩
  · intro parsed name h
    simp [get_gencol_expr, h]
  · intro parsed name cd h1 h2
    simp [get_gencol_expr, h1, h2]

/-- Concrete instance of Claim C8 (amended): a statement list without a
table-creation node yields the sentinel. -/
theorem C8_gencol_amended_witness :
    get_gencol_expr (some [Statement.OtherStmt]) "square"
      = "<could not get AS expression>" :=
  C8_gencol_amended.2.1 (some [Statement.OtherStmt]) "square" (by decide)

/-- Claim C9: requesting a name absent from the catalog produces the
specific `No such table` error and a non-zero exit code; requesting a
present name with limit 0 produces an empty sample and exit code 0. -/
theorem C9_lookup_errors :
    (∀ (catalog : List TableListEntry) (data : List (List String))
      (name : String) (limit : Nat),
      in_db catalog name = false →
      run_table_command catalog data name limit
        = CmdResult.error ("No such table: " ++ name)
      ∧ exit_code (run_table_command catalog data name limit) ≠ 0)
    ∧ (∀ (catalog : List TableListEntry) (data : List (List String))
      (name : String),
      in_db catalog name = true →
      run_table_command catalog data name 0 = CmdResult.ok []
      ∧ exit_code (run_table_command catalog data name 0) = 0) := by
  constructor
  · intro catalog data name limit h
    constructor
    · simp [run_table_command, h]
    · simp [run_table_command, h, exit_code]
  · intro catalog data name h
    constructor
    · simp [run_table_command, h]
    · simp [run_table_command, h, exit_code]

/-- Concrete instance of Claim C9: `nonesuch` is rejected with the lookup
error, and sampling `email` with limit 0 succeeds with no rows. -/
theorem C9_lookup_errors_witness :
    run_table_command fts5Catalog [["x"]] "nonesuch" 12
      = CmdResult.error ("No such table: " ++ "nonesuch")
    ∧ run_table_command fts5Catalog [["x"]] "email" 0 = CmdResult.ok [] :=
  ⟨(C9_lookup_errors.1 fts5Catalog [["x"]] "nonesuch" 12 (by decide)).1,
   (C9_lookup_errors.2 fts5Catalog [["x"]] "email" (by decide)).1⟩

end Glance
